import Mathlib

/-!
Verification of the Inmapper OTP frontend auth SDK against its
natural-language specification.

The definitions below are a shallow embedding of the JavaScript source:

* `InmapperAuth.*` embeds the session manager class of
  `sdk/inmapper-auth.esm.js` (token lifecycle, storage, validation,
  protect / logout / hasPermission / fetch, callback-token interceptor).
  Browser and network effects are made explicit: the network is an
  oracle value of type `FetchOutcome`, storage fallibility is an oracle
  counting how many storage operations succeed before one throws, and
  observable side effects (network calls, hook invocations, redirects)
  are collected in an event list.
* `VerifyOTP.*` embeds the OTP digit-entry handlers of the
  `VerifyOTP` React component (`handleChange`, `handlePaste`,
  `handleVerify`).

JavaScript strings are modelled as `String` (or `List Char` for the
URL-rewriting analysis), JS `null`/`undefined` via `Option`, and JS
exceptions via `Except` with the source's `try`/`catch` structure made
explicit.
-/

namespace VerifyOTP

/-- The auto-verify guard of `handleVerify`: the network verification
request is issued only when the assembled code has exactly 6
characters; it carries the code. Returns the list of verification
calls issued (the argument of each `authApi.verifyOTP` call). -/
def handleVerifyCalls (code : String) : List String :=
  if code.length = 6 then [code] else []

/-- Embeds `VerifyOTP.handleChange(index, value)`: single-digit guard
(`/^\d$/` on a nonempty value), slot update, and the auto-submit
condition `value && index === 5 && newOtp.every(digit => digit)`.
Returns the new slot array and the verification calls issued. -/
def handleChange (otp : List String) (index : Nat) (value : String) :
    List String × List String :=
  if value ≠ "" ∧ ¬(value.length = 1 ∧ value.data.all Char.isDigit) then
    (otp, [])
  else
    let newOtp := otp.set index value
    if value ≠ "" ∧ index = 5 ∧ newOtp.all (fun d => d ≠ "") then
      (newOtp, handleVerifyCalls (String.join newOtp))
    else
      (newOtp, [])

/-- `digits.forEach((digit, i) => { if (i < 6) newOtp[i] = digit })`:
overwrite a prefix of the slot array with the pasted digits, keeping
the remaining slots. -/
def fillFrom : List String → List String → List String
  | os, [] => os
  | [], _ :: _ => []
  | _ :: os, d :: ds => d :: fillFrom os ds

/-- Embeds `VerifyOTP.handlePaste`: strip non-digits from the pasted
text (`replace(/\D/g, '')`), keep the first six digits, fill the
slots, and auto-verify when exactly six digits were pasted. -/
def handlePaste (otp : List String) (text : String) :
    List String × List String :=
  let digits := ((text.data.filter Char.isDigit).take 6).map
    (fun c => String.mk [c])
  let newOtp := fillFrom otp digits
  if digits.length = 6 then
    (newOtp, handleVerifyCalls (String.join newOtp))
  else
    (newOtp, [])

/-- A well-formed slot array: six slots, each empty or one ASCII digit
(the only states reachable through the component's handlers). -/
def wfOtp (otp : List String) : Prop :=
  otp.length = 6 ∧ ∀ s ∈ otp, s = "" ∨ (s.length = 1 ∧ s.data.all Char.isDigit)

end VerifyOTP

namespace InmapperAuth

/-- The user record cached by the session manager (shape of the
`user` object returned by `POST /auth/validate`; only identity fields
are relevant to the claims). -/
structure User where
  id : Nat
  email : String
  name : String
deriving DecidableEq, Repr

/-- One persisted-store slot for the serialized user: absent, a
well-formed serialization of a user, or a corrupt string on which
`JSON.parse` throws. -/
inductive Slot where
  | empty
  | val (u : User)
  | corrupt
deriving DecidableEq, Repr

/-- The persisted store (`localStorage` under the configured keys):
the token slot holds a raw string or is absent, the user slot a
serialized user. -/
structure Store where
  tokenSlot : Option String
  userSlot : Slot
deriving DecidableEq, Repr

/-- In-memory state of the `InmapperAuth` instance:
`_token`, `_user`, `_initialized`. -/
structure AuthState where
  token : Option String
  user : Option User
  initialized : Bool
deriving DecidableEq, Repr

/-- The configuration options relevant to control flow: the default
resource, the auto-redirect flag, and which optional hooks are
configured. -/
structure Config where
  resourceId : Option String
  autoRedirect : Bool
  hasOnAuthRequired : Bool
  hasOnAuthSuccess : Bool
  hasOnAuthError : Bool
  hasOnAccessDenied : Bool
deriving DecidableEq, Repr

/-- Observable side effects of the session manager: outgoing network
requests, hook invocations, redirects, and `history.replaceState`. -/
inductive Event where
  | validateCall (token : String) (resource : Option String)
  | logoutCall (token : String)
  | onAuthSuccess (u : User)
  | onAuthError
  | authRequired
  | redirectLogin
  | accessDeniedCustom (u : User)
  | accessDeniedDefault (u : User)
  | replaceUrl (url : String)
deriving DecidableEq, Repr

/-- JS truthiness of a nullable string: `null`, `undefined` and `""`
are falsy. -/
def truthy : Option String → Bool
  | none => false
  | some s => !s.isEmpty

/-- JS `a || b` on nullable strings. -/
def jsOr (a b : Option String) : Option String :=
  if truthy a then a else b

/-! URL query-string machinery used by `_handleCallbackToken`.
Strings are handled as `List Char`; percent-decoding is the identity
on the character sets considered by the theorems (no `%`, no `+`). -/

/-- `URLSearchParams` drops a single leading question mark. -/
def stripQm : List Char → List Char
  | '?' :: r => r
  | r => r

/-- Split a character list on `&` (the separator semantics of
`URLSearchParams`). -/
def splitAmp : List Char → List (List Char)
  | [] => [[]]
  | c :: r =>
    if c = '&' then [] :: splitAmp r
    else
      match splitAmp r with
      | [] => [[c]]
      | s :: ss => (c :: s) :: ss

/-- Split one `key=value` segment at the first `=`; a segment without
`=` yields an empty value, as `URLSearchParams` does. -/
def splitEq (l : List Char) : List Char × List Char :=
  (l.takeWhile (fun c => c ≠ '='), (l.dropWhile (fun c => c ≠ '=')).drop 1)

/-- Parse a `location.search` string into its key/value pairs
(empty segments are ignored, as `URLSearchParams` does). -/
def parseSearch (s : List Char) : List (List Char × List Char) :=
  ((splitAmp (stripQm s)).filter (fun g => g ≠ [])).map splitEq

/-- `new URLSearchParams(search).get(name)`: the value of the first
pair with the given key (identity decoding on the considered
character sets). -/
def getParam (name s : List Char) : Option (List Char) :=
  ((parseSearch s).find? (fun p => p.1 == name)).map (fun p => p.2)

/-- The characters the regex literal `token=` consists of. -/
def tokenPat : List Char := ['t', 'o', 'k', 'e', 'n', '=']

/-- The key string `token`. -/
def tokenKeyChars : List Char := ['t', 'o', 'k', 'e', 'n']

/-- `dropWhile (≠ '&')`: what the greedy `[^&]+` leaves behind. -/
def dropToAmp (l : List Char) : List Char :=
  l.dropWhile (fun c => c ≠ '&')

/-- Whether `[^&]+` can start here: at least one character and the
first is not `&`. -/
def valueStart : List Char → Bool
  | [] => false
  | d :: _ => decide (d ≠ '&')

/-- Does the regex `[?&]token=[^&]+` match at the head of the list?
If so, return what remains after the matched substring. -/
def matchTokenAt (l : List Char) : Option (List Char) :=
  match l with
  | [] => none
  | c :: r =>
    if (c = '?' ∨ c = '&') ∧ r.take 6 = tokenPat ∧ valueStart (r.drop 6) = true
    then some (dropToAmp (r.drop 6))
    else none

/-- `String.prototype.replace` with the non-global regex
`/[?&]token=[^&]+/` and an empty replacement: delete the leftmost
match, keep everything else. -/
def replaceFirstToken : List Char → List Char
  | [] => []
  | c :: r =>
    match matchTokenAt (c :: r) with
    | some rem => rem
    | none => c :: replaceFirstToken r

/-- `.replace(/^&/, '?')`: turn a leading `&` into `?`. -/
def fixLead : List Char → List Char
  | '&' :: r => '?' :: r
  | l => l

/-- The full query-string rewrite performed by
`_handleCallbackToken` on `window.location.search`. -/
def cleanSearch (s : List Char) : List Char :=
  fixLead (replaceFirstToken s)

/-! Spec-side description of well-formed query strings, used to state
the amended form of the URL-rewrite claim: a query is a `&`-separated
sequence of `key=value` segments. -/

/-- One `key=value` segment. -/
def seg (p : List Char × List Char) : List Char :=
  p.1 ++ '=' :: p.2

/-- Render a pair list as the tail of a query string, each segment
preceded by its `&` separator. -/
def ampPairs : List (List Char × List Char) → List Char
  | [] => []
  | p :: ps => '&' :: (seg p ++ ampPairs ps)

/-- Render a pair list as `seg₁&seg₂&...`. -/
def renderPairs : List (List Char × List Char) → List Char
  | [] => []
  | p :: ps => seg p ++ ampPairs ps

/-- Render a pair list as a full `location.search` string (empty, or
`?` followed by the segments). -/
def renderQuery (ps : List (List Char × List Char)) : List Char :=
  match ps with
  | [] => []
  | _ :: _ => '?' :: renderPairs ps

/-- A plain key: nonempty, no separator or metacharacters, and free
of `%` and `+` so that percent-decoding is the identity. -/
@[reducible] def plainKey (k : List Char) : Prop :=
  k ≠ [] ∧ ∀ c ∈ k, c ≠ '&' ∧ c ≠ '?' ∧ c ≠ '=' ∧ c ≠ '%' ∧ c ≠ '+'

/-- A plain value: no separators (`=` is allowed inside values), and
free of `%` and `+` so that percent-decoding is the identity. -/
@[reducible] def plainVal (v : List Char) : Prop :=
  ∀ c ∈ v, c ≠ '&' ∧ c ≠ '?' ∧ c ≠ '%' ∧ c ≠ '+'

/-! Storage primitives. Each `localStorage` access can throw; the
source wraps every storage transaction in its own `try`/`catch`, so a
throw aborts the remaining operations of that transaction and is then
swallowed. The oracle `okOps` is the number of storage operations that
succeed before one throws (a large value means no failure). -/

/-- Embeds `_saveToStorage`: write the token slot if the token is
truthy, then the user slot if a user is cached; a throw stops the
transaction and is caught inside the method. -/
def saveToStorage (a : AuthState) (st : Store) (okOps : Nat) : Store :=
  let tokenAttempted := truthy a.token
  let st1 :=
    if tokenAttempted then
      if 1 ≤ okOps then { st with tokenSlot := a.token } else st
    else st
  let used := if tokenAttempted then 1 else 0
  match a.user with
  | none => st1
  | some u =>
    if used + 1 ≤ okOps then { st1 with userSlot := Slot.val u } else st1

/-- The in-memory part of `_clearAuth`: null out token and user. -/
def clearAuthMem (a : AuthState) : AuthState :=
  { a with token := none, user := none }

/-- The storage part of `_clearAuth`: remove both slots; a throw
stops the transaction and is caught inside the method. -/
def clearAuthStore (st : Store) (okOps : Nat) : Store :=
  let st1 := if 1 ≤ okOps then { st with tokenSlot := none } else st
  if 2 ≤ okOps then { st1 with userSlot := Slot.empty } else st1

/-- Embeds `_loadFromStorage`: read the token slot, then the user
slot, then `JSON.parse` the user JSON. A throw (unavailable storage,
corrupt JSON) aborts the rest and is caught inside the method, so the
fields assigned before the throw keep their new values. -/
def loadFromStorage (a : AuthState) (st : Store) (okOps : Nat) : AuthState :=
  if okOps = 0 then a
  else
    let a1 := { a with token := st.tokenSlot }
    if okOps = 1 then a1
    else
      match st.userSlot with
      | Slot.empty => { a1 with user := none }
      | Slot.val u => { a1 with user := some u }
      | Slot.corrupt => a1

/-- The browser location visible to the instance. -/
structure Env where
  pathname : List Char
  search : List Char
deriving DecidableEq, Repr

/-- Embeds `_handleCallbackToken`: if the URL carries a truthy
`token` query parameter, adopt it as the active token, persist it,
and rewrite the visible URL via `history.replaceState`. -/
def handleCallbackToken (env : Env) (a : AuthState) (st : Store)
    (saveOps : Nat) : AuthState × Store × Env × List Event :=
  match getParam tokenKeyChars env.search with
  | some v =>
    if v ≠ [] then
      let a1 := { a with token := some (String.mk v) }
      let st1 := saveToStorage a1 st saveOps
      let cleaned := cleanSearch env.search
      let cleanUrl := env.pathname ++ cleaned
      let newUrl := if cleanUrl = [] then env.pathname else cleanUrl
      (a1, st1, { env with search := cleaned },
        [Event.replaceUrl (String.mk newUrl)])
    else (a, st, env, [])
  | none => (a, st, env, [])

/-- Embeds `init`: a no-op when already initialized, otherwise run the
callback-token interceptor, load from storage, and set the
initialized flag. -/
def init (env : Env) (a : AuthState) (st : Store)
    (saveOps loadOps : Nat) : AuthState × Store × Env × List Event :=
  if a.initialized then (a, st, env, [])
  else
    let r1 := handleCallbackToken env a st saveOps
    let a2 := loadFromStorage r1.1 r1.2.1 loadOps
    ({ a2 with initialized := true }, r1.2.1, r1.2.2.1, r1.2.2.2)

/-! The validation round trip and `getUser`. -/

/-- Outcome of one `fetch` of `POST /auth/validate`: the request
promise rejects, `response.json()` rejects, or a parsed JSON body
`{valid, user?, hasResourceAccess?}` arrives. -/
inductive FetchOutcome where
  | netError
  | parseError
  | response (valid : Bool) (user : Option User)
      (hasResourceAccess : Option Bool)
deriving DecidableEq, Repr

/-- Value returned by `getUser`: `null`, a bare user, or the
`{user, hasResourceAccess}` pair returned when a resource was
requested (`hasResourceAccess` itself may be absent from the
response). -/
inductive GetUserResult where
  | noUser
  | justUser (u : User)
  | withAccess (u : User) (hasResourceAccess : Option Bool)
deriving DecidableEq, Repr

/-- The `try` block of `getUser` once a truthy token `tk` is known
and the cache was not served: issue the validation request and act on
the parsed body. `Except.error` carries the state at the point of the
uncaught throw. -/
def getUserTryBlock (cfg : Config) (a : AuthState) (st : Store)
    (r : Option String) (fetchOut : FetchOutcome)
    (saveOps clearOps : Nat) (tk : String) :
    Except (AuthState × Store × List Event)
      (GetUserResult × AuthState × Store × List Event) :=
  let callEv := Event.validateCall tk (if truthy r then r else none)
  match fetchOut with
  | FetchOutcome.netError => Except.error (a, st, [callEv])
  | FetchOutcome.parseError => Except.error (a, st, [callEv])
  | FetchOutcome.response valid uOpt hra =>
    match valid, uOpt with
    | true, some u =>
      let a1 := { a with user := some u }
      let st1 := saveToStorage a1 st saveOps
      let evs := [callEv] ++
        (if cfg.hasOnAuthSuccess then [Event.onAuthSuccess u] else [])
      if truthy r then Except.ok (GetUserResult.withAccess u hra, a1, st1, evs)
      else Except.ok (GetUserResult.justUser u, a1, st1, evs)
    | _, _ =>
      Except.ok (GetUserResult.noUser, clearAuthMem a,
        clearAuthStore st clearOps, [callEv])

/-- The `try`/`catch` of `getUser`: a throw from the `try` block is
caught, reported through `onAuthError` when configured, and converted
to a `null` result with the state left as it was at the throw. -/
def getUserWithToken (cfg : Config) (a : AuthState) (st : Store)
    (r : Option String) (fetchOut : FetchOutcome)
    (saveOps clearOps : Nat) (tk : String) :
    GetUserResult × AuthState × Store × List Event :=
  match getUserTryBlock cfg a st r fetchOut saveOps clearOps tk with
  | Except.ok res => res
  | Except.error (a1, st1, evs) =>
    (GetUserResult.noUser, a1, st1,
      evs ++ (if cfg.hasOnAuthError then [Event.onAuthError] else []))

/-- Embeds `getUser(forceRefresh, resourceId)`: ensure
initialization, return `null` without a token, serve the cached user
when neither `forceRefresh` nor a resource is in effect, otherwise
validate over the network. -/
def getUser (cfg : Config) (env : Env) (a : AuthState) (st : Store)
    (forceRefresh : Bool) (resourceId : Option String)
    (fetchOut : FetchOutcome) (initSaveOps loadOps saveOps clearOps : Nat) :
    GetUserResult × AuthState × Store × Env × List Event :=
  let r0 := init env a st initSaveOps loadOps
  let a1 := r0.1
  let st1 := r0.2.1
  let env1 := r0.2.2.1
  let evs0 := r0.2.2.2
  if ¬ truthy a1.token then (GetUserResult.noUser, a1, st1, env1, evs0)
  else
    match a1.user, forceRefresh, truthy resourceId with
    | some u, false, false => (GetUserResult.justUser u, a1, st1, env1, evs0)
    | _, _, _ =>
      let tk := match a1.token with | some t => t | none => ""
      let r1 := getUserWithToken cfg a1 st1 resourceId fetchOut saveOps
        clearOps tk
      (r1.1, r1.2.1, r1.2.2.1, env1, evs0 ++ r1.2.2.2)

/-- Embeds `setToken`: set the token, drop the cached user, persist. -/
def setToken (a : AuthState) (t : String) (st : Store) (saveOps : Nat) :
    AuthState × Store :=
  let a1 := { a with token := some t, user := none }
  (a1, saveToStorage a1 st saveOps)

/-- Embeds `_redirectToLogin`: fire `onAuthRequired` when configured,
then navigate to the login origin unless `autoRedirect` was turned
off by a configured hook. -/
def redirectToLogin (cfg : Config) : List Event :=
  if cfg.hasOnAuthRequired then
    if cfg.autoRedirect then [Event.authRequired, Event.redirectLogin]
    else [Event.authRequired]
  else [Event.redirectLogin]

/-- Embeds `_handleAccessDenied`: the configured handler replaces the
built-in denial view. -/
def handleAccessDenied (cfg : Config) (u : User) : List Event :=
  if cfg.hasOnAccessDenied then [Event.accessDeniedCustom u]
  else [Event.accessDeniedDefault u]

/-- Embeds `protect(options)`: resolve the user with the effective
resource (`options.resourceId || config.resourceId`), redirect to
login when there is no result, run the access-denied path when the
result carries `hasResourceAccess === false`, otherwise return the
user. -/
def protect (cfg : Config) (env : Env) (a : AuthState) (st : Store)
    (optResourceId : Option String) (fetchOut : FetchOutcome)
    (initSaveOps loadOps saveOps clearOps : Nat) :
    Option User × AuthState × Store × Env × List Event :=
  let r := jsOr optResourceId cfg.resourceId
  let g := getUser cfg env a st false r fetchOut initSaveOps loadOps
    saveOps clearOps
  match g.1 with
  | GetUserResult.noUser =>
    (none, g.2.1, g.2.2.1, g.2.2.2.1, g.2.2.2.2 ++ redirectToLogin cfg)
  | GetUserResult.justUser u => (some u, g.2.1, g.2.2.1, g.2.2.2.1, g.2.2.2.2)
  | GetUserResult.withAccess u hra =>
    if hra = some false then
      (none, g.2.1, g.2.2.1, g.2.2.2.1, g.2.2.2.2 ++ handleAccessDenied cfg u)
    else (some u, g.2.1, g.2.2.1, g.2.2.2.1, g.2.2.2.2)

/-- Embeds `hasPermission(resourceId)`: force a fresh resource-scoped
validation and reduce the result to `hasResourceAccess === true`. -/
def hasPermission (cfg : Config) (env : Env) (a : AuthState) (st : Store)
    (rid : String) (fetchOut : FetchOutcome)
    (initSaveOps loadOps saveOps clearOps : Nat) :
    Bool × AuthState × Store × Env × List Event :=
  let g := getUser cfg env a st true (some rid) fetchOut initSaveOps loadOps
    saveOps clearOps
  (match g.1 with
   | GetUserResult.withAccess _ (some true) => true
   | _ => false, g.2.1, g.2.2.1, g.2.2.2.1, g.2.2.2.2)

/-- Outcome of the best-effort revocation request in `logout`. -/
def logoutRevoke (fetchFails : Bool) : Except Unit Unit :=
  if fetchFails then Except.error () else Except.ok ()

/-- Embeds `logout(redirect)`: fire the revocation request when a
token is held (its failure is caught and only logged), then
unconditionally clear the session, then optionally redirect to
login. -/
def logout (a : AuthState) (st : Store) (redirect : Bool)
    (fetchFails : Bool) (clearOps : Nat) : AuthState × Store × List Event :=
  let evs0 :=
    match a.token with
    | some tk => if tk = "" then [] else [Event.logoutCall tk]
    | none => []
  let cont : AuthState × Store × List Event :=
    let a1 := clearAuthMem a
    let st1 := clearAuthStore st clearOps
    (a1, st1, evs0 ++ (if redirect then [Event.redirectLogin] else []))
  match (if truthy a.token then logoutRevoke fetchFails else Except.ok ()) with
  | Except.ok _ => cont
  | Except.error _ => cont

/-- The string interpolation `Bearer ${this._token}`: JS renders a
`null` token as the literal text `null`. -/
def renderToken : Option String → String
  | none => "null"
  | some s => s

/-- Embeds the header merge of the authenticated `fetch` wrapper:
`{...options.headers, 'Authorization': 'Bearer ' + token}` over a
string-keyed header map. -/
def authFetchHeaders (headers : String → Option String)
    (token : Option String) : String → Option String :=
  fun k =>
    if k = "Authorization" then some ("Bearer " ++ renderToken token)
    else headers k

/-- Recognizer for outgoing `POST /auth/validate` requests in an
event trace. -/
def isValidateCall : Event → Bool
  | Event.validateCall _ _ => true
  | _ => false

/-- Number of validation network requests in an event trace. -/
def countValidate (evs : List Event) : Nat :=
  (evs.filter isValidateCall).length

end InmapperAuth

/-! Concrete fixtures used by witnesses and counterexamples. -/

/-- A concrete user. -/
def uW : InmapperAuth.User := ⟨7, "w@x.y", "W"⟩

/-- A configuration with no hooks, no default resource. -/
def cfgW : InmapperAuth.Config := ⟨none, true, false, false, false, false⟩

/-- A browser location with an empty query string. -/
def envW : InmapperAuth.Env := ⟨"/p".data, []⟩

/-! General-purpose lemmas shared by the claim theorems. -/

section Helpers

open InmapperAuth

theorem truthy_some_of_ne {t : String} (h : t ≠ "") :
    truthy (some t) = true := by
  have : t.isEmpty = false := by
    rw [Bool.eq_false_iff]
    intro hc
    exact h ((String.isEmpty_iff t).mp hc)
  simp [truthy, this]

theorem init_of_initialized (env : Env) (a : AuthState) (st : Store)
    (so lo : Nat) (h : a.initialized = true) :
    init env a st so lo = (a, st, env, []) := by
  simp [init, h]

end Helpers

/-- Claim C10: every request sent through the session manager's
`fetch` wrapper carries an `Authorization` header equal to the string
`Bearer ` followed by the string rendering of the current token; a
caller-supplied `Authorization` entry is always overwritten, every
other caller header is passed through unchanged, and with no token the
header holds the literal text `Bearer null` rather than being
omitted. -/
theorem authFetch_authorization_header (h : String → Option String)
    (tok : Option String) :
    InmapperAuth.authFetchHeaders h tok "Authorization" =
      some ("Bearer " ++ InmapperAuth.renderToken tok)
    ∧ (tok = none →
        InmapperAuth.authFetchHeaders h tok "Authorization" =
          some "Bearer null")
    ∧ ∀ k, k ≠ "Authorization" →
        InmapperAuth.authFetchHeaders h tok k = h k := by
  refine ⟨by simp [InmapperAuth.authFetchHeaders], ?_, ?_⟩
  · rintro rfl
    simp [InmapperAuth.authFetchHeaders, InmapperAuth.renderToken]
  · intro k hk
    simp [InmapperAuth.authFetchHeaders, hk]

/-- Witness for C10 at concrete inputs: with no token the header is
the literal `Bearer null`, and an unrelated caller header
survives. -/
theorem authFetch_authorization_header_witness :
    InmapperAuth.authFetchHeaders (fun k => if k = "X-A" then some "v" else none)
      none "Authorization" = some "Bearer null"
    ∧ InmapperAuth.authFetchHeaders
        (fun k => if k = "X-A" then some "v" else none) none "X-A" = some "v" := by
  refine ⟨(authFetch_authorization_header _ none).2.1 rfl, ?_⟩
  have h2 := (authFetch_authorization_header
    (fun k => if k = "X-A" then some "v" else none) none).2.2 "X-A" (by decide)
  simpa using h2

/-- Claim C6: `logout(true)` unconditionally clears the token and the
user from memory and from the persisted store and emits the redirect
to the login origin, whether or not the server-side revocation
request fails; the revocation failure is swallowed by the `catch`
inside `logout` (the embedding is a total function of the revocation
outcome, so no exception reaches the caller). -/
theorem logout_always_clears_and_redirects (a : InmapperAuth.AuthState)
    (st : InmapperAuth.Store) (fetchFails : Bool) :
    (InmapperAuth.logout a st true fetchFails 2).1 =
      { a with token := none, user := none }
    ∧ (InmapperAuth.logout a st true fetchFails 2).2.1 =
      { tokenSlot := none, userSlot := InmapperAuth.Slot.empty }
    ∧ InmapperAuth.Event.redirectLogin ∈
      (InmapperAuth.logout a st true fetchFails 2).2.2 := by
  obtain ⟨tk, us, ini⟩ := a
  obtain ⟨ts, us2⟩ := st
  cases tk with
  | none =>
    cases fetchFails <;>
      simp [InmapperAuth.logout, InmapperAuth.logoutRevoke,
        InmapperAuth.clearAuthMem, InmapperAuth.clearAuthStore,
        InmapperAuth.truthy]
  | some v =>
    cases fetchFails <;> cases hv : v.isEmpty <;>
      simp [InmapperAuth.logout, InmapperAuth.logoutRevoke,
        InmapperAuth.clearAuthMem, InmapperAuth.clearAuthStore,
        InmapperAuth.truthy, hv]

/-- Claim C2 (code bug): evaluation of the code at the failing input.
Starting from a session with token `t1` and validated user `uW`
persisted, `setToken "t2"` clears the in-memory user and persists the
new token, but leaves the stale serialized user in the store; after a
reload (a fresh instance that re-reads the store), `getUser()` serves
the user cached under `t1` from the store without issuing any
validation request, although the active token is now `t2`. -/
theorem setToken_stale_persisted_user_served :
    (InmapperAuth.setToken ⟨some "t1", some uW, true⟩ "t2"
      ⟨some "t1", InmapperAuth.Slot.val uW⟩ 9).1.user = none
    ∧ (InmapperAuth.setToken ⟨some "t1", some uW, true⟩ "t2"
        ⟨some "t1", InmapperAuth.Slot.val uW⟩ 9).2 =
      ⟨some "t2", InmapperAuth.Slot.val uW⟩
    ∧ (InmapperAuth.getUser cfgW envW ⟨none, none, false⟩
        ⟨some "t2", InmapperAuth.Slot.val uW⟩ false none
        InmapperAuth.FetchOutcome.netError 9 9 9 9).1 =
      InmapperAuth.GetUserResult.justUser uW
    ∧ InmapperAuth.countValidate
        (InmapperAuth.getUser cfgW envW ⟨none, none, false⟩
          ⟨some "t2", InmapperAuth.Slot.val uW⟩ false none
          InmapperAuth.FetchOutcome.netError 9 9 9 9).2.2.2.2 = 0 := by
  refine ⟨by decide, by decide, by decide, by decide⟩

/-- Counterexample to claim C5 as stated: on a session holding no
token, `hasPermission('billing')` issues no validation request at all
(the claim demands a network validation for every session state), and
returns `false`. -/
theorem hasPermission_no_token_no_request :
    (InmapperAuth.hasPermission cfgW envW ⟨none, none, true⟩
      ⟨none, InmapperAuth.Slot.empty⟩ "billing"
      InmapperAuth.FetchOutcome.netError 9 9 9 9).1 = false
    ∧ InmapperAuth.countValidate
        (InmapperAuth.hasPermission cfgW envW ⟨none, none, true⟩
          ⟨none, InmapperAuth.Slot.empty⟩ "billing"
          InmapperAuth.FetchOutcome.netError 9 9 9 9).2.2.2.2 = 0
    ∧ ¬ (1 ≤ InmapperAuth.countValidate
        (InmapperAuth.hasPermission cfgW envW ⟨none, none, true⟩
          ⟨none, InmapperAuth.Slot.empty⟩ "billing"
          InmapperAuth.FetchOutcome.netError 9 9 9 9).2.2.2.2) := by
  refine ⟨by decide, by decide, by decide⟩

/-- Counterexample to claim C9 as stated: with slots
`1 2 _ 4 5 6`, typing the sixth digit `9` into slot index 2 completes
the grid but triggers no verification call (the auto-submit condition
of `handleChange` also requires the typed slot to be the last one),
refuting that entering the sixth digit by typing into a slot always
triggers exactly one verification. -/
theorem handleChange_sixth_digit_mid_slot_no_verify :
    VerifyOTP.handleChange ["1", "2", "", "4", "5", "6"] 2 "9" =
      (["1", "2", "9", "4", "5", "6"], [])
    ∧ ¬ ((VerifyOTP.handleChange
        ["1", "2", "", "4", "5", "6"] 2 "9").2.length = 1) := by
  refine ⟨by decide, by decide⟩

/-- Characterization of one `hasPermission` call on a session holding
a nonempty token, for a nonempty resource id: exactly one validation
request is issued, it is scoped to the resource, the returned boolean
is precisely `hasResourceAccess === true`, and unless the server
answered with an invalid-token response the token survives the
call. -/
theorem hasPermission_single
    (cfg : InmapperAuth.Config) (env : InmapperAuth.Env)
    (a : InmapperAuth.AuthState) (st : InmapperAuth.Store)
    (rid t : String) (o : InmapperAuth.FetchOutcome) (i l s c : Nat)
    (hinit : a.initialized = true) (htok : a.token = some t)
    (ht : t ≠ "") (hr : rid ≠ "") :
    InmapperAuth.countValidate
      (InmapperAuth.hasPermission cfg env a st rid o i l s c).2.2.2.2 = 1
    ∧ InmapperAuth.Event.validateCall t (some rid) ∈
      (InmapperAuth.hasPermission cfg env a st rid o i l s c).2.2.2.2
    ∧ ((InmapperAuth.hasPermission cfg env a st rid o i l s c).1 = true ↔
        ∃ u, o = InmapperAuth.FetchOutcome.response true (some u) (some true))
    ∧ ((o = InmapperAuth.FetchOutcome.netError ∨
        o = InmapperAuth.FetchOutcome.parseError ∨
        ∃ u h2, o = InmapperAuth.FetchOutcome.response true (some u) h2) →
        (InmapperAuth.hasPermission cfg env a st rid o i l s c).2.1.token =
          some t
        ∧ (InmapperAuth.hasPermission
            cfg env a st rid o i l s c).2.1.initialized = true) := by
  have hT := truthy_some_of_ne ht
  have hR := truthy_some_of_ne hr
  obtain ⟨tk, us, ini⟩ := a
  obtain rfl : tk = some t := htok
  obtain rfl : ini = true := hinit
  rcases o with _ | _ | ⟨valid, uOpt, hra⟩
  · cases us <;> cases cfg.hasOnAuthError <;>
      simp [InmapperAuth.hasPermission, InmapperAuth.getUser,
        InmapperAuth.getUserWithToken, InmapperAuth.getUserTryBlock,
        InmapperAuth.init, InmapperAuth.countValidate,
        InmapperAuth.isValidateCall, hT, hR]
  · cases us <;> cases cfg.hasOnAuthError <;>
      simp [InmapperAuth.hasPermission, InmapperAuth.getUser,
        InmapperAuth.getUserWithToken, InmapperAuth.getUserTryBlock,
        InmapperAuth.init, InmapperAuth.countValidate,
        InmapperAuth.isValidateCall, hT, hR]
  · rcases valid with _ | _ <;> rcases uOpt with _ | u <;>
      rcases hra with _ | b <;>
      cases us <;> cases cfg.hasOnAuthSuccess <;>
      simp [InmapperAuth.hasPermission, InmapperAuth.getUser,
        InmapperAuth.getUserWithToken, InmapperAuth.getUserTryBlock,
        InmapperAuth.init, InmapperAuth.countValidate,
        InmapperAuth.isValidateCall, InmapperAuth.clearAuthMem,
        InmapperAuth.clearAuthStore, InmapperAuth.saveToStorage, hT, hR]
    all_goals (cases b <;> simp)

/-- Claim C5, amended: whenever the session holds a nonempty token,
`hasPermission(resourceId)` (nonempty resource id) always issues
exactly one validation request scoped to that resource and returns
exactly the boolean `hasResourceAccess === true`, never serving the
answer from the cached user; and unless the first response was an
invalid-token verdict (which destroys the session and its token), a
second consecutive call issues a second request. On a session with no
token the call returns `false` without any request. -/
theorem hasPermission_always_validates
    (cfg : InmapperAuth.Config) (env : InmapperAuth.Env)
    (a : InmapperAuth.AuthState) (st : InmapperAuth.Store)
    (rid t : String) (o1 o2 : InmapperAuth.FetchOutcome)
    (i1 l1 s1 c1 i2 l2 s2 c2 : Nat)
    (hinit : a.initialized = true) (htok : a.token = some t)
    (ht : t ≠ "") (hr : rid ≠ "") :
    InmapperAuth.countValidate
      (InmapperAuth.hasPermission cfg env a st rid o1 i1 l1 s1 c1).2.2.2.2 = 1
    ∧ InmapperAuth.Event.validateCall t (some rid) ∈
      (InmapperAuth.hasPermission cfg env a st rid o1 i1 l1 s1 c1).2.2.2.2
    ∧ ((InmapperAuth.hasPermission cfg env a st rid o1 i1 l1 s1 c1).1 = true ↔
        ∃ u, o1 = InmapperAuth.FetchOutcome.response true (some u) (some true))
    ∧ ((o1 = InmapperAuth.FetchOutcome.netError ∨
        o1 = InmapperAuth.FetchOutcome.parseError ∨
        ∃ u h2, o1 = InmapperAuth.FetchOutcome.response true (some u) h2) →
        InmapperAuth.countValidate
          (InmapperAuth.hasPermission cfg
            (InmapperAuth.hasPermission cfg env a st rid o1 i1 l1 s1 c1).2.2.2.1
            (InmapperAuth.hasPermission cfg env a st rid o1 i1 l1 s1 c1).2.1
            (InmapperAuth.hasPermission cfg env a st rid o1 i1 l1 s1 c1).2.2.1
            rid o2 i2 l2 s2 c2).2.2.2.2 = 1) := by
  obtain ⟨hc1, hm1, hv1, hkeep⟩ :=
    hasPermission_single cfg env a st rid t o1 i1 l1 s1 c1 hinit htok ht hr
  refine ⟨hc1, hm1, hv1, ?_⟩
  intro hcase
  obtain ⟨htok2, hinit2⟩ := hkeep hcase
  exact (hasPermission_single cfg
    (InmapperAuth.hasPermission cfg env a st rid o1 i1 l1 s1 c1).2.2.2.1
    (InmapperAuth.hasPermission cfg env a st rid o1 i1 l1 s1 c1).2.1
    (InmapperAuth.hasPermission cfg env a st rid o1 i1 l1 s1 c1).2.2.1
    rid t o2 i2 l2 s2 c2 hinit2 htok2 ht hr).1

/-- Witness for C5 (amended) at concrete inputs: a session holding
token `tok` asked twice for resource `billing` across a transport
failure issues one request per call. -/
theorem hasPermission_always_validates_witness :
    (⟨some "tok", some uW, true⟩ : InmapperAuth.AuthState).initialized = true
    ∧ (⟨some "tok", some uW, true⟩ : InmapperAuth.AuthState).token = some "tok"
    ∧ ("tok" : String) ≠ "" ∧ ("billing" : String) ≠ ""
    ∧ InmapperAuth.countValidate
        (InmapperAuth.hasPermission cfgW envW ⟨some "tok", some uW, true⟩
          ⟨some "tok", InmapperAuth.Slot.val uW⟩ "billing"
          InmapperAuth.FetchOutcome.netError 9 9 9 9).2.2.2.2 = 1 := by
  refine ⟨rfl, rfl, by decide, by decide, ?_⟩
  exact (hasPermission_always_validates cfgW envW ⟨some "tok", some uW, true⟩
    ⟨some "tok", InmapperAuth.Slot.val uW⟩ "billing" "tok"
    InmapperAuth.FetchOutcome.netError InmapperAuth.FetchOutcome.netError
    9 9 9 9 9 9 9 9 rfl rfl (by decide) (by decide)).1

/-- Claim C8: on a session already holding a validated cached user,
with no forced refresh and no resource in effect, `protect()` returns
the cached user and changes nothing, so two consecutive calls issue
zero (hence at most one) validation requests; the second call is
served from the in-memory cache. -/
theorem protect_twice_cached_no_network
    (cfg : InmapperAuth.Config) (env : InmapperAuth.Env)
    (st : InmapperAuth.Store) (u : InmapperAuth.User) (t : String)
    (o1 o2 : InmapperAuth.FetchOutcome) (i1 l1 s1 c1 i2 l2 s2 c2 : Nat)
    (ht : t ≠ "") (hcfg : InmapperAuth.truthy cfg.resourceId = false) :
    InmapperAuth.protect cfg env ⟨some t, some u, true⟩ st none o1 i1 l1 s1 c1 =
      (some u, ⟨some t, some u, true⟩, st, env, [])
    ∧ InmapperAuth.protect cfg env ⟨some t, some u, true⟩ st none o2 i2 l2 s2 c2 =
      (some u, ⟨some t, some u, true⟩, st, env, [])
    ∧ InmapperAuth.countValidate
        (InmapperAuth.protect cfg env ⟨some t, some u, true⟩ st none
          o1 i1 l1 s1 c1).2.2.2.2
      + InmapperAuth.countValidate
        (InmapperAuth.protect cfg env ⟨some t, some u, true⟩ st none
          o2 i2 l2 s2 c2).2.2.2.2 = 0 := by
  have hT := truthy_some_of_ne ht
  have h1 : ∀ (o : InmapperAuth.FetchOutcome) (i l s c : Nat),
      InmapperAuth.protect cfg env ⟨some t, some u, true⟩ st none o i l s c =
        (some u, ⟨some t, some u, true⟩, st, env, []) := by
    intro o i l s c
    have hnone : InmapperAuth.truthy none = false := rfl
    simp [InmapperAuth.protect, InmapperAuth.getUser, InmapperAuth.init,
      InmapperAuth.jsOr, hnone, hT, hcfg]
  refine ⟨h1 o1 i1 l1 s1 c1, h1 o2 i2 l2 s2 c2, ?_⟩
  rw [h1 o1 i1 l1 s1 c1, h1 o2 i2 l2 s2 c2]
  simp [InmapperAuth.countValidate]

/-- Witness for C8 at concrete inputs. -/
theorem protect_twice_cached_no_network_witness :
    ("tok" : String) ≠ ""
    ∧ InmapperAuth.truthy cfgW.resourceId = false
    ∧ InmapperAuth.protect cfgW envW ⟨some "tok", some uW, true⟩
        ⟨some "tok", InmapperAuth.Slot.val uW⟩ none
        InmapperAuth.FetchOutcome.netError 9 9 9 9 =
      (some uW, ⟨some "tok", some uW, true⟩,
        ⟨some "tok", InmapperAuth.Slot.val uW⟩, envW, []) := by
  refine ⟨by decide, by decide, ?_⟩
  exact (protect_twice_cached_no_network cfgW envW
    ⟨some "tok", InmapperAuth.Slot.val uW⟩ uW "tok"
    InmapperAuth.FetchOutcome.netError InmapperAuth.FetchOutcome.netError
    9 9 9 9 9 9 9 9 (by decide) (by decide)).1

/-- Claim C4: when validation succeeds with a user but the response
carries `hasResourceAccess: false`, `protect` invokes the
access-denied path (the configured `onAccessDenied` handler if
present, else the built-in denial view), returns `null`, and never
invokes the login redirect or the auth-required hook. -/
theorem protect_access_denied_no_login_redirect
    (cfg : InmapperAuth.Config) (env : InmapperAuth.Env)
    (a : InmapperAuth.AuthState) (st : InmapperAuth.Store)
    (opt : Option String) (rid t : String) (u : InmapperAuth.User)
    (i l s c : Nat)
    (hinit : a.initialized = true) (htok : a.token = some t) (ht : t ≠ "")
    (heff : InmapperAuth.jsOr opt cfg.resourceId = some rid) (hr : rid ≠ "") :
    (InmapperAuth.protect cfg env a st opt
      (InmapperAuth.FetchOutcome.response true (some u) (some false))
      i l s c).1 = none
    ∧ (cfg.hasOnAccessDenied = true →
        InmapperAuth.Event.accessDeniedCustom u ∈
          (InmapperAuth.protect cfg env a st opt
            (InmapperAuth.FetchOutcome.response true (some u) (some false))
            i l s c).2.2.2.2)
    ∧ (cfg.hasOnAccessDenied = false →
        InmapperAuth.Event.accessDeniedDefault u ∈
          (InmapperAuth.protect cfg env a st opt
            (InmapperAuth.FetchOutcome.response true (some u) (some false))
            i l s c).2.2.2.2)
    ∧ InmapperAuth.Event.redirectLogin ∉
        (InmapperAuth.protect cfg env a st opt
          (InmapperAuth.FetchOutcome.response true (some u) (some false))
          i l s c).2.2.2.2
    ∧ InmapperAuth.Event.authRequired ∉
        (InmapperAuth.protect cfg env a st opt
          (InmapperAuth.FetchOutcome.response true (some u) (some false))
          i l s c).2.2.2.2 := by
  have hT := truthy_some_of_ne ht
  have hR := truthy_some_of_ne hr
  obtain ⟨tk, us, ini⟩ := a
  obtain rfl : tk = some t := htok
  obtain rfl : ini = true := hinit
  cases us <;> cases hd : cfg.hasOnAccessDenied <;>
    cases hs : cfg.hasOnAuthSuccess <;>
    simp [InmapperAuth.protect, InmapperAuth.getUser, InmapperAuth.init,
      InmapperAuth.getUserWithToken, InmapperAuth.getUserTryBlock,
      InmapperAuth.handleAccessDenied, InmapperAuth.saveToStorage,
      heff, hT, hR, hd, hs]

/-- Witness for C4 at concrete inputs. -/
theorem protect_access_denied_no_login_redirect_witness :
    (⟨some "tok", none, true⟩ : InmapperAuth.AuthState).initialized = true
    ∧ (⟨some "tok", none, true⟩ : InmapperAuth.AuthState).token = some "tok"
    ∧ ("tok" : String) ≠ ""
    ∧ InmapperAuth.jsOr (some "admin") cfgW.resourceId = some "admin"
    ∧ ("admin" : String) ≠ ""
    ∧ (InmapperAuth.protect cfgW envW ⟨some "tok", none, true⟩
        ⟨some "tok", InmapperAuth.Slot.empty⟩ (some "admin")
        (InmapperAuth.FetchOutcome.response true (some uW) (some false))
        9 9 9 9).1 = none := by
  refine ⟨rfl, rfl, by decide, by decide, by decide, ?_⟩
  exact (protect_access_denied_no_login_redirect cfgW envW
    ⟨some "tok", none, true⟩ ⟨some "tok", InmapperAuth.Slot.empty⟩
    (some "admin") "admin" "tok" uW 9 9 9 9 rfl rfl (by decide) (by decide)
    (by decide)).1

/-- When a nonempty token is held and the cached user is not
servable (no cached user, or a forced refresh, or a resource in
effect), `getUser` reaches its network path and behaves as
`getUserWithToken`. -/
theorem getUser_fetches
    (cfg : InmapperAuth.Config) (env : InmapperAuth.Env)
    (a : InmapperAuth.AuthState) (st : InmapperAuth.Store)
    (f : Bool) (r : Option String) (t : String)
    (o : InmapperAuth.FetchOutcome) (i l s c : Nat)
    (hinit : a.initialized = true) (htok : a.token = some t) (ht : t ≠ "")
    (hm : a.user = none ∨ f = true ∨ InmapperAuth.truthy r = true) :
    InmapperAuth.getUser cfg env a st f r o i l s c =
      ((InmapperAuth.getUserWithToken cfg a st r o s c t).1,
        (InmapperAuth.getUserWithToken cfg a st r o s c t).2.1,
        (InmapperAuth.getUserWithToken cfg a st r o s c t).2.2.1,
        env,
        (InmapperAuth.getUserWithToken cfg a st r o s c t).2.2.2) := by
  have hT := truthy_some_of_ne ht
  obtain ⟨tk, us, ini⟩ := a
  obtain rfl : tk = some t := htok
  obtain rfl : ini = true := hinit
  rcases hm with hm | hm | hm
  · obtain rfl : us = none := hm
    cases f <;> cases hr : InmapperAuth.truthy r <;>
      simp [InmapperAuth.getUser, InmapperAuth.init, hT, hr]
  · obtain rfl : f = true := hm
    rcases us with _ | u <;> cases hr : InmapperAuth.truthy r <;>
      simp [InmapperAuth.getUser, InmapperAuth.init, hT, hr]
  · rcases us with _ | u <;> cases f <;>
      simp [InmapperAuth.getUser, InmapperAuth.init, hT, hm]

/-- Claim C1: for every session state on which `getUser` actually
attempts a validation (nonempty token, cache not servable), a
transport or parse failure (the fetch or `response.json` rejecting)
returns `null` and leaves the in-memory session and the persisted
store exactly unchanged, while an explicit response with
`valid: false` or a missing `user` field clears the token and user
from memory and from the store via `_clearAuth`; the session is
destroyed only in the latter case. -/
theorem getUser_failure_handling
    (cfg : InmapperAuth.Config) (env : InmapperAuth.Env)
    (a : InmapperAuth.AuthState) (st : InmapperAuth.Store)
    (f : Bool) (r : Option String) (t : String)
    (o : InmapperAuth.FetchOutcome) (i l s : Nat)
    (hinit : a.initialized = true) (htok : a.token = some t) (ht : t ≠ "")
    (hm : a.user = none ∨ f = true ∨ InmapperAuth.truthy r = true) :
    ((o = InmapperAuth.FetchOutcome.netError ∨
      o = InmapperAuth.FetchOutcome.parseError) →
      (InmapperAuth.getUser cfg env a st f r o i l s 2).1 =
        InmapperAuth.GetUserResult.noUser
      ∧ (InmapperAuth.getUser cfg env a st f r o i l s 2).2.1 = a
      ∧ (InmapperAuth.getUser cfg env a st f r o i l s 2).2.2.1 = st)
    ∧ (∀ v uo h2, o = InmapperAuth.FetchOutcome.response v uo h2 →
        ¬ (v = true ∧ uo.isSome = true) →
        (InmapperAuth.getUser cfg env a st f r o i l s 2).1 =
          InmapperAuth.GetUserResult.noUser
        ∧ (InmapperAuth.getUser cfg env a st f r o i l s 2).2.1 =
          { a with token := none, user := none }
        ∧ (InmapperAuth.getUser cfg env a st f r o i l s 2).2.2.1 =
          { tokenSlot := none, userSlot := InmapperAuth.Slot.empty }) := by
  rw [getUser_fetches cfg env a st f r t o i l s 2 hinit htok ht hm]
  obtain ⟨ts, us2⟩ := st
  constructor
  · rintro (rfl | rfl) <;>
      simp [InmapperAuth.getUserWithToken, InmapperAuth.getUserTryBlock]
  · rintro v uo h2 rfl hko
    have hcase : v = false ∨ uo = none := by
      rcases v with _ | _
      · exact Or.inl rfl
      · rcases uo with _ | u
        · exact Or.inr rfl
        · exact absurd ⟨rfl, rfl⟩ hko
    rcases hcase with rfl | rfl
    · simp [InmapperAuth.getUserWithToken, InmapperAuth.getUserTryBlock,
        InmapperAuth.clearAuthMem, InmapperAuth.clearAuthStore]
    · rcases v with _ | _ <;>
        simp [InmapperAuth.getUserWithToken, InmapperAuth.getUserTryBlock,
          InmapperAuth.clearAuthMem, InmapperAuth.clearAuthStore]

/-- Witness for C1 at concrete inputs: a forced refresh under a
transport failure leaves the session untouched, and an explicit
`valid: false` response clears it. -/
theorem getUser_failure_handling_witness :
    ((⟨some "tok", some uW, true⟩ : InmapperAuth.AuthState).initialized = true
      ∧ (⟨some "tok", some uW, true⟩ :
          InmapperAuth.AuthState).token = some "tok"
      ∧ ("tok" : String) ≠ ""
      ∧ (true : Bool) = true)
    ∧ (InmapperAuth.getUser cfgW envW ⟨some "tok", some uW, true⟩
        ⟨some "tok", InmapperAuth.Slot.val uW⟩ true none
        InmapperAuth.FetchOutcome.netError 9 9 9 2).2.1 =
      ⟨some "tok", some uW, true⟩
    ∧ (InmapperAuth.getUser cfgW envW ⟨some "tok", some uW, true⟩
        ⟨some "tok", InmapperAuth.Slot.val uW⟩ true none
        (InmapperAuth.FetchOutcome.response false none none) 9 9 9 2).2.1 =
      { token := none, user := none, initialized := true } := by
  refine ⟨⟨rfl, rfl, by decide, rfl⟩, ?_, ?_⟩
  · exact ((getUser_failure_handling cfgW envW ⟨some "tok", some uW, true⟩
      ⟨some "tok", InmapperAuth.Slot.val uW⟩ true none "tok"
      InmapperAuth.FetchOutcome.netError 9 9 9 rfl rfl (by decide)
      (Or.inr (Or.inl rfl))).1 (Or.inl rfl)).2.1
  · exact ((getUser_failure_handling cfgW envW ⟨some "tok", some uW, true⟩
      ⟨some "tok", InmapperAuth.Slot.val uW⟩ true none "tok"
      (InmapperAuth.FetchOutcome.response false none none) 9 9 9 rfl rfl
      (by decide) (Or.inr (Or.inl rfl))).2 false none none rfl
      (by decide)).2.1

/-- With no resource requested, the network path of `getUser` yields
either `null` or a bare user, for every fetch outcome and storage
behavior: the throwing branches of the `try` block (`Except.error`)
are all absorbed by the `catch` of `getUserWithToken`. -/
theorem getUserWithToken_shape (cfg : InmapperAuth.Config)
    (a : InmapperAuth.AuthState) (st : InmapperAuth.Store)
    (o : InmapperAuth.FetchOutcome) (s c : Nat) (tk : String) :
    (InmapperAuth.getUserWithToken cfg a st none o s c tk).1 =
      InmapperAuth.GetUserResult.noUser
    ∨ ∃ u, (InmapperAuth.getUserWithToken cfg a st none o s c tk).1 =
      InmapperAuth.GetUserResult.justUser u := by
  rcases o with _ | _ | ⟨v, uo, h2⟩
  · left
    simp [InmapperAuth.getUserWithToken, InmapperAuth.getUserTryBlock]
  · left
    simp [InmapperAuth.getUserWithToken, InmapperAuth.getUserTryBlock]
  · rcases v with _ | _ <;> rcases uo with _ | u
    · left
      simp [InmapperAuth.getUserWithToken, InmapperAuth.getUserTryBlock]
    · left
      simp [InmapperAuth.getUserWithToken, InmapperAuth.getUserTryBlock]
    · left
      simp [InmapperAuth.getUserWithToken, InmapperAuth.getUserTryBlock]
    · right
      exact ⟨u, by
        simp [InmapperAuth.getUserWithToken, InmapperAuth.getUserTryBlock,
          InmapperAuth.truthy]⟩

/-- Every result of `getUser` with no resource requested is `null` or
a bare user, over every initialization path, fetch outcome and
storage behavior. -/
theorem getUser_shape (cfg : InmapperAuth.Config) (env : InmapperAuth.Env)
    (a : InmapperAuth.AuthState) (st : InmapperAuth.Store) (f : Bool)
    (o : InmapperAuth.FetchOutcome) (i l s c : Nat) :
    (InmapperAuth.getUser cfg env a st f none o i l s c).1 =
      InmapperAuth.GetUserResult.noUser
    ∨ ∃ u, (InmapperAuth.getUser cfg env a st f none o i l s c).1 =
      InmapperAuth.GetUserResult.justUser u := by
  unfold InmapperAuth.getUser
  generalize InmapperAuth.init env a st i l = q
  obtain ⟨a1, st1, env1, evs1⟩ := q
  obtain ⟨tk1, us1, ini1⟩ := a1
  rcases tk1 with _ | t1
  · left
    simp [InmapperAuth.truthy]
  · cases hE : t1.isEmpty
    · rcases us1 with _ | u
      · rcases getUserWithToken_shape cfg ⟨some t1, none, ini1⟩ st1 o s c t1
          with h | ⟨u, h⟩
        · left
          simpa [InmapperAuth.truthy, hE] using h
        · right
          exact ⟨u, by simpa [InmapperAuth.truthy, hE] using h⟩
      · cases f
        · right
          exact ⟨u, by simp [InmapperAuth.truthy, hE]⟩
        · rcases getUserWithToken_shape cfg ⟨some t1, some u, ini1⟩ st1 o s c
            t1 with h | ⟨u2, h⟩
          · left
            simpa [InmapperAuth.truthy, hE] using h
          · right
            exact ⟨u2, by simpa [InmapperAuth.truthy, hE] using h⟩
    · left
      simp [InmapperAuth.truthy, hE]

/-- Claim C7: for every token `T`, calling `getUser()` after
`setToken(T)` returns a bare user or `null` for every behavior of the
network transport, the response parser and the persisted store (every
fetch outcome and every storage-operation budget); no path escapes
the `try`/`catch` of `getUser`, whose handler produces the `null`
result. On an initialized session with nonempty `T`, the result is a
user exactly when the server answered `valid: true` with a user. -/
theorem getUser_after_setToken_never_throws
    (cfg : InmapperAuth.Config) (env : InmapperAuth.Env)
    (a : InmapperAuth.AuthState) (st : InmapperAuth.Store) (T : String)
    (o : InmapperAuth.FetchOutcome) (sOps i l s c : Nat) :
    ((InmapperAuth.getUser cfg env (InmapperAuth.setToken a T st sOps).1
        (InmapperAuth.setToken a T st sOps).2 false none o i l s c).1 =
      InmapperAuth.GetUserResult.noUser
      ∨ ∃ u, (InmapperAuth.getUser cfg env (InmapperAuth.setToken a T st
          sOps).1 (InmapperAuth.setToken a T st sOps).2 false none o i l
          s c).1 = InmapperAuth.GetUserResult.justUser u)
    ∧ (a.initialized = true → T ≠ "" →
        ∀ u, (InmapperAuth.getUser cfg env (InmapperAuth.setToken a T st
            sOps).1 (InmapperAuth.setToken a T st sOps).2 false none o i l
            s c).1 = InmapperAuth.GetUserResult.justUser u ↔
          ∃ h2, o = InmapperAuth.FetchOutcome.response true (some u) h2) := by
  constructor
  · exact getUser_shape cfg env (InmapperAuth.setToken a T st sOps).1
      (InmapperAuth.setToken a T st sOps).2 false o i l s c
  · intro hinit hT u
    rw [getUser_fetches cfg env (InmapperAuth.setToken a T st sOps).1
      (InmapperAuth.setToken a T st sOps).2 false none T o i l s c
      (by simpa [InmapperAuth.setToken] using hinit)
      (by simp [InmapperAuth.setToken]) hT
      (Or.inl (by simp [InmapperAuth.setToken]))]
    rcases o with _ | _ | ⟨v, uo, h2⟩
    · simp [InmapperAuth.getUserWithToken, InmapperAuth.getUserTryBlock]
    · simp [InmapperAuth.getUserWithToken, InmapperAuth.getUserTryBlock]
    · rcases v with _ | _ <;> rcases uo with _ | u0 <;>
        simp [InmapperAuth.getUserWithToken, InmapperAuth.getUserTryBlock,
          InmapperAuth.truthy]

/-- Witness for C7 at a concrete input: on an initialized session,
after `setToken "T9"`, a `valid: true` response with a user yields
exactly that user. -/
theorem getUser_after_setToken_never_throws_witness :
    ((⟨some "old", some uW, true⟩ :
        InmapperAuth.AuthState).initialized = true
      ∧ ("T9" : String) ≠ "")
    ∧ ((InmapperAuth.getUser cfgW envW
        (InmapperAuth.setToken ⟨some "old", some uW, true⟩ "T9"
          ⟨some "old", InmapperAuth.Slot.val uW⟩ 9).1
        (InmapperAuth.setToken ⟨some "old", some uW, true⟩ "T9"
          ⟨some "old", InmapperAuth.Slot.val uW⟩ 9).2 false none
        (InmapperAuth.FetchOutcome.response true (some uW) none)
        9 9 9 9).1 = InmapperAuth.GetUserResult.justUser uW ↔
      ∃ h2, InmapperAuth.FetchOutcome.response true (some uW) none =
        InmapperAuth.FetchOutcome.response true (some uW) h2) := by
  refine ⟨⟨rfl, by decide⟩, ?_⟩
  exact (getUser_after_setToken_never_throws cfgW envW
    ⟨some "old", some uW, true⟩ ⟨some "old", InmapperAuth.Slot.val uW⟩ "T9"
    (InmapperAuth.FetchOutcome.response true (some uW) none)
    9 9 9 9 9).2 rfl (by decide) uW

/-- Joining singleton-character strings yields the string of those
characters (`newOtp.join('')` over single-digit slots). -/
theorem stringJoin_singletons (ds : List Char) :
    String.join (ds.map fun c => String.mk [c]) = String.mk ds := by
  rw [String.join_eq]
  apply congrArg
  rw [List.map_map]
  have h : (String.data ∘ fun c => String.mk [c]) = fun c => [c] := rfl
  rw [h]
  induction ds with
  | nil => rfl
  | cons c cs ih => simp [List.flatten, ih]

/-- The length of a join of one-character strings is the number of
strings. -/
theorem stringJoin_length_ones (l : List String)
    (h : ∀ s ∈ l, s.length = 1) : (String.join l).length = l.length := by
  rw [String.join_eq]
  show (List.map String.data l).flatten.length = l.length
  rw [List.length_flatten, List.map_map]
  have h2 : ∀ s ∈ l, (List.length ∘ String.data) s = 1 := fun s hs => h s hs
  calc (l.map (List.length ∘ String.data)).sum
      = (l.map (fun _ => 1)).sum := by
        apply congrArg
        exact List.map_congr_left h2
    _ = l.length := by simp

/-- Overwriting a prefix of equal length replaces the list. -/
theorem fillFrom_full (os ds : List String) (h : os.length = ds.length) :
    VerifyOTP.fillFrom os ds = ds := by
  induction ds generalizing os with
  | nil =>
    have : os = [] := List.length_eq_zero.mp h
    subst this
    rfl
  | cons d ds2 ih =>
    rcases os with _ | ⟨o, os2⟩
    · exact absurd h (by simp)
    · show d :: VerifyOTP.fillFrom os2 ds2 = d :: ds2
      rw [ih os2 (by simpa using h)]

/-- Claim C9, amended: typing a digit auto-triggers exactly one
verification call, carrying the concatenated six-digit code, when the
typed slot is the last one (index 5) and all six slots are then
filled (typing the sixth digit into an earlier slot does not
trigger, per the counterexample); pasting text containing exactly six
digits into any slot fills all six slots with those digits and
triggers exactly one verification call carrying them, in particular
pasting the text `123456`. -/
theorem otp_sixth_digit_autoverify :
    (∀ otp v, VerifyOTP.wfOtp otp → v.length = 1 →
      v.data.all Char.isDigit = true →
      (otp.set 5 v).all (fun d => d ≠ "") = true →
      VerifyOTP.handleChange otp 5 v =
        (otp.set 5 v, [String.join (otp.set 5 v)]))
    ∧ (∀ otp text, VerifyOTP.wfOtp otp →
        (text.data.filter Char.isDigit).length = 6 →
        VerifyOTP.handlePaste otp text =
          ((text.data.filter Char.isDigit).map (fun c => String.mk [c]),
            [String.mk (text.data.filter Char.isDigit)])) := by
  constructor
  · intro otp v hwf hv1 hvd hall
    have hvne : v ≠ "" := by
      intro hc
      rw [hc] at hv1
      exact absurd hv1 (by decide)
    have hlen : ∀ s ∈ otp.set 5 v, s.length = 1 := by
      intro s hs
      rcases List.mem_or_eq_of_mem_set hs with hmem | rfl
      · rcases hwf.2 s hmem with rfl | ⟨h1, _⟩
        · have := (List.all_eq_true.mp hall) _ hs
          simp at this
        · exact h1
      · exact hv1
    have h6 : (String.join (otp.set 5 v)).length = 6 := by
      rw [stringJoin_length_ones _ hlen, List.length_set]
      exact hwf.1
    unfold VerifyOTP.handleChange
    rw [if_neg (fun hc => hc.2 ⟨hv1, hvd⟩)]
    simp only []
    rw [if_pos ⟨hvne, by trivial, hall⟩]
    unfold VerifyOTP.handleVerifyCalls
    rw [if_pos h6]
  · intro otp text hwf h6
    have htake : (text.data.filter Char.isDigit).take 6 =
        text.data.filter Char.isDigit := by
      conv_lhs => rw [← h6]
      exact List.take_length _
    have hfill : VerifyOTP.fillFrom otp
        ((text.data.filter Char.isDigit).map fun c => String.mk [c]) =
        (text.data.filter Char.isDigit).map fun c => String.mk [c] :=
      fillFrom_full _ _ (by rw [List.length_map, h6, hwf.1])
    unfold VerifyOTP.handlePaste
    simp only [htake, hfill]
    rw [if_pos (by rw [List.length_map]; exact h6)]
    unfold VerifyOTP.handleVerifyCalls
    rw [stringJoin_singletons]
    rw [if_pos (by show (text.data.filter Char.isDigit).length = 6; exact h6)]

/-- Witness for C9 (amended) at concrete inputs: typing `6` into the
last slot of `1 2 3 4 5 _` triggers one verification with `123456`,
and pasting `123456` into the empty grid fills all six slots and
triggers one verification with `123456`. -/
theorem otp_sixth_digit_autoverify_witness :
    VerifyOTP.handleChange ["1", "2", "3", "4", "5", ""] 5 "6" =
      (["1", "2", "3", "4", "5", "6"], ["123456"])
    ∧ VerifyOTP.handlePaste ["", "", "", "", "", ""] "123456" =
      (["1", "2", "3", "4", "5", "6"], ["123456"]) := by
  constructor
  · have h := otp_sixth_digit_autoverify.1 ["1", "2", "3", "4", "5", ""] "6"
      (by constructor
          · decide
          · decide) (by decide) (by decide) (by decide)
    exact h.trans (by decide)
  · have h := otp_sixth_digit_autoverify.2 ["", "", "", "", "", ""] "123456"
      (by constructor
          · decide
          · decide) (by decide)
    exact h.trans (by decide)

/-- Counterexample to claim C3 as stated: for the query string
`?a=b?token=Y&token=X` (a legal query whose first parameter value
contains `?token=`, and which contains exactly one `token`
parameter, of value `X`), the interceptor adopts `X`, but the regex
rewrite deletes `?token=Y` from inside the value of `a` instead of
the actual token parameter: the visible query keeps `token=X` and the
rest of the query string is not preserved byte-for-byte. -/
theorem callback_rewrite_counterexample :
    InmapperAuth.getParam InmapperAuth.tokenKeyChars
      ("?a=b?token=Y&token=X".data) = some ("X".data)
    ∧ InmapperAuth.parseSearch ("?a=b?token=Y&token=X".data) =
      [("a".data, "b?token=Y".data), ("token".data, "X".data)]
    ∧ InmapperAuth.cleanSearch ("?a=b?token=Y&token=X".data) =
      ("?a=b&token=X".data)
    ∧ InmapperAuth.cleanSearch ("?a=b?token=Y&token=X".data) ≠
      ("?a=b?token=Y".data) := by
  refine ⟨by decide, by decide, by decide, by decide⟩

/-- Equation form of `matchTokenAt` at a cons cell. -/
theorem matchTokenAt_cons (c : Char) (r : List Char) :
    InmapperAuth.matchTokenAt (c :: r) =
      if (c = '?' ∨ c = '&') ∧ r.take 6 = InmapperAuth.tokenPat ∧
          InmapperAuth.valueStart (r.drop 6) = true
      then some (InmapperAuth.dropToAmp (r.drop 6)) else none := rfl

/-- A key followed by `=` whose first `pat.length + 1` characters
spell `pat ++ [=]` must be `pat` itself, when neither the key nor
`pat` contains `=`. -/
theorem take_key_eq (kp : List Char) :
    ∀ (k t : List Char), '=' ∉ k → '=' ∉ kp →
    (k ++ '=' :: t).take (kp.length + 1) = kp ++ ['='] → k = kp := by
  induction kp with
  | nil =>
    intro k t hk _ h
    rcases k with _ | ⟨c, k2⟩
    · rfl
    · rw [List.cons_append, List.length_nil, List.take_succ_cons] at h
      rw [List.nil_append] at h
      injection h with h1 _
      exact absurd (h1 ▸ List.mem_cons_self c k2) hk
  | cons p kp2 ih =>
    intro k t hk hkp h
    rw [List.length_cons] at h
    rcases k with _ | ⟨c, k2⟩
    · rw [List.nil_append, List.take_succ_cons, List.cons_append] at h
      injection h with h1 _
      exact absurd (h1 ▸ List.mem_cons_self p kp2) hkp
    · rw [List.cons_append, List.take_succ_cons, List.cons_append] at h
      injection h with h1 h2
      subst h1
      rw [ih k2 t (fun hm => hk (List.mem_cons_of_mem _ hm))
        (fun hm => hkp (List.mem_cons_of_mem _ hm)) h2]

/-- The regex `[?&]token=[^&]+` cannot match at a separator followed
by a `key=value` segment whose key is not the literal `token`. -/
theorem matchTokenAt_none_sep (c : Char) (k t : List Char)
    (hk : '=' ∉ k) (hne : k ≠ InmapperAuth.tokenKeyChars) :
    InmapperAuth.matchTokenAt (c :: (k ++ '=' :: t)) = none := by
  rw [matchTokenAt_cons, if_neg]
  rintro ⟨-, h2, -⟩
  apply hne
  apply take_key_eq InmapperAuth.tokenKeyChars k t hk (by decide)
  have h6 : InmapperAuth.tokenKeyChars.length + 1 = 6 := by decide
  rw [h6]
  rw [show InmapperAuth.tokenKeyChars ++ ['='] = InmapperAuth.tokenPat
    from rfl]
  exact h2

/-- The regex cannot match at a character that is neither `?` nor
`&`. -/
theorem matchTokenAt_none_head (c : Char) (r : List Char)
    (h1 : c ≠ '?') (h2 : c ≠ '&') :
    InmapperAuth.matchTokenAt (c :: r) = none := by
  rw [matchTokenAt_cons, if_neg]
  rintro ⟨h, -, -⟩
  rcases h with h | h
  · exact h1 h
  · exact h2 h

/-- Dropping up to the first `&` skips a `&`-free prefix. -/
theorem dropToAmp_append (v m : List Char) :
    (∀ c ∈ v, c ≠ '&') →
    InmapperAuth.dropToAmp (v ++ m) = InmapperAuth.dropToAmp m := by
  induction v with
  | nil => intro _; rfl
  | cons d v2 ih =>
    intro hv
    show ((d :: v2) ++ m).dropWhile (fun c => c ≠ '&') = _
    rw [List.cons_append, List.dropWhile_cons, if_pos]
    · exact ih (fun c hc => hv c (List.mem_cons_of_mem _ hc))
    · simpa using hv d (List.mem_cons_self d v2)

/-- The regex does match at a separator followed by the `token`
segment with a nonempty `&`-free value, consuming the whole value. -/
theorem matchTokenAt_token (c : Char) (v m : List Char)
    (hc : c = '?' ∨ c = '&') (hv : v ≠ []) (hvamp : ∀ x ∈ v, x ≠ '&') :
    InmapperAuth.matchTokenAt
      (c :: (InmapperAuth.seg (InmapperAuth.tokenKeyChars, v) ++ m)) =
      some (InmapperAuth.dropToAmp m) := by
  have hshape : InmapperAuth.seg (InmapperAuth.tokenKeyChars, v) ++ m =
      InmapperAuth.tokenPat ++ (v ++ m) := by
    show (InmapperAuth.tokenKeyChars ++ '=' :: v) ++ m = _
    rw [show InmapperAuth.tokenPat = InmapperAuth.tokenKeyChars ++ ['=']
      from rfl]
    simp
  rw [hshape, matchTokenAt_cons]
  have htake : (InmapperAuth.tokenPat ++ (v ++ m)).take 6 =
      InmapperAuth.tokenPat := List.take_left' (by decide)
  have hdrop : (InmapperAuth.tokenPat ++ (v ++ m)).drop 6 = v ++ m :=
    List.drop_left' (by decide)
  rcases v with _ | ⟨d, v2⟩
  · exact absurd rfl hv
  · have hd : d ≠ '&' := hvamp d (List.mem_cons_self d v2)
    rw [if_pos]
    · rw [hdrop]
      exact congrArg some (dropToAmp_append (d :: v2) m hvamp)
    · refine ⟨hc, htake, ?_⟩
      rw [hdrop, List.cons_append]
      show InmapperAuth.valueStart (d :: (v2 ++ m)) = true
      simpa [InmapperAuth.valueStart] using hd

/-- Equation form of `replaceFirstToken` at a cons cell. -/
theorem replaceFirstToken_cons (c : Char) (r : List Char) :
    InmapperAuth.replaceFirstToken (c :: r) =
      match InmapperAuth.matchTokenAt (c :: r) with
      | some rem => rem
      | none => c :: InmapperAuth.replaceFirstToken r := rfl

/-- The rewrite walks over a prefix free of `?` and `&` unchanged. -/
theorem replaceFirstToken_plain_append (l m : List Char) :
    (∀ c ∈ l, c ≠ '?' ∧ c ≠ '&') →
    InmapperAuth.replaceFirstToken (l ++ m) =
      l ++ InmapperAuth.replaceFirstToken m := by
  induction l with
  | nil => intro _; rfl
  | cons c l2 ih =>
    intro hl
    obtain ⟨h1, h2⟩ := hl c (List.mem_cons_self c l2)
    rw [List.cons_append, replaceFirstToken_cons,
      matchTokenAt_none_head c _ h1 h2]
    show c :: InmapperAuth.replaceFirstToken (l2 ++ m) = _
    rw [ih (fun c2 hc => hl c2 (List.mem_cons_of_mem _ hc)), List.cons_append]

/-- Every character of a plain segment is neither `?` nor `&`. -/
theorem seg_plain (k v : List Char) (hk : InmapperAuth.plainKey k)
    (hv : InmapperAuth.plainVal v) :
    ∀ c ∈ InmapperAuth.seg (k, v), c ≠ '?' ∧ c ≠ '&' := by
  intro c hc
  rcases List.mem_append.mp hc with hm | hm
  · exact ⟨(hk.2 c hm).2.1, (hk.2 c hm).1⟩
  · rcases List.mem_cons.mp hm with rfl | hm2
    · exact ⟨by decide, by decide⟩
    · exact ⟨(hv c hm2).2.1, (hv c hm2).1⟩

/-- `ampPairs` output is empty or starts with `&`, so it is a fixed
point of `dropToAmp`. -/
theorem dropToAmp_ampPairs (ps : List (List Char × List Char)) :
    InmapperAuth.dropToAmp (InmapperAuth.ampPairs ps) =
      InmapperAuth.ampPairs ps := by
  cases ps with
  | nil => rfl
  | cons q ps2 =>
    show (('&' :: _).dropWhile fun c => c ≠ '&') = _
    rw [List.dropWhile_cons, if_neg (by simp)]
    rfl

/-- Deleting the first regex match from the tail of a rendered query
removes exactly the `token` segment together with its leading `&`. -/
theorem replaceFirstToken_ampPairs
    (post : List (List Char × List Char)) (v : List Char)
    (hv : v ≠ []) (hvp : InmapperAuth.plainVal v) :
    ∀ pre, (∀ p ∈ pre, InmapperAuth.plainKey p.1 ∧
      InmapperAuth.plainVal p.2 ∧ p.1 ≠ InmapperAuth.tokenKeyChars) →
    InmapperAuth.replaceFirstToken
      (InmapperAuth.ampPairs (pre ++ (InmapperAuth.tokenKeyChars, v) :: post))
      = InmapperAuth.ampPairs (pre ++ post) := by
  intro pre
  induction pre with
  | nil =>
    intro _
    show InmapperAuth.replaceFirstToken
      ('&' :: (InmapperAuth.seg (InmapperAuth.tokenKeyChars, v) ++
        InmapperAuth.ampPairs post)) = InmapperAuth.ampPairs post
    rw [replaceFirstToken_cons,
      matchTokenAt_token '&' v _ (Or.inr rfl) hv
        (fun x hx => (hvp x hx).1)]
    exact dropToAmp_ampPairs post
  | cons q pre2 ih =>
    intro hpre
    obtain ⟨hqk, hqv, hqne⟩ := hpre q (List.mem_cons_self q pre2)
    have hknoeq : '=' ∉ q.1 := fun hm => ((hqk.2 '=' hm).2.2.1) rfl
    have hres : ∀ X : List Char,
        InmapperAuth.seg q ++ X = q.1 ++ '=' :: (q.2 ++ X) := by
      intro X
      show (q.1 ++ '=' :: q.2) ++ X = _
      rw [List.append_assoc, List.cons_append]
    show InmapperAuth.replaceFirstToken
        ('&' :: (InmapperAuth.seg q ++ InmapperAuth.ampPairs
          (pre2 ++ (InmapperAuth.tokenKeyChars, v) :: post))) =
      '&' :: (InmapperAuth.seg q ++ InmapperAuth.ampPairs (pre2 ++ post))
    rw [replaceFirstToken_cons, hres, matchTokenAt_none_sep '&' q.1 _
      hknoeq hqne]
    show '&' :: InmapperAuth.replaceFirstToken (q.1 ++ '=' :: (q.2 ++ _)) = _
    rw [← hres, replaceFirstToken_plain_append _ _ (seg_plain q.1 q.2 hqk hqv),
      ih (fun p hp => hpre p (List.mem_cons_of_mem _ hp))]

/-- The full query-string rewrite of the interceptor on a well-formed
query containing exactly one `token` parameter deletes exactly that
parameter and its separator. -/
theorem cleanSearch_render
    (pre post : List (List Char × List Char)) (v : List Char)
    (hpre : ∀ p ∈ pre, InmapperAuth.plainKey p.1 ∧
      InmapperAuth.plainVal p.2 ∧ p.1 ≠ InmapperAuth.tokenKeyChars)
    (hv : v ≠ []) (hvp : InmapperAuth.plainVal v) :
    InmapperAuth.cleanSearch
      (InmapperAuth.renderQuery
        (pre ++ (InmapperAuth.tokenKeyChars, v) :: post)) =
      InmapperAuth.renderQuery (pre ++ post) := by
  rcases pre with _ | ⟨q, pre2⟩
  · show InmapperAuth.fixLead (InmapperAuth.replaceFirstToken
      ('?' :: (InmapperAuth.seg (InmapperAuth.tokenKeyChars, v) ++
        InmapperAuth.ampPairs post))) = _
    rw [replaceFirstToken_cons,
      matchTokenAt_token '?' v _ (Or.inl rfl) hv (fun x hx => (hvp x hx).1)]
    show InmapperAuth.fixLead (InmapperAuth.dropToAmp
      (InmapperAuth.ampPairs post)) = _
    rw [dropToAmp_ampPairs]
    cases post with
    | nil => rfl
    | cons q2 ps => rfl
  · obtain ⟨hqk, hqv, hqne⟩ := hpre q (List.mem_cons_self q pre2)
    have hknoeq : '=' ∉ q.1 := fun hm => ((hqk.2 '=' hm).2.2.1) rfl
    have hres : ∀ X : List Char,
        InmapperAuth.seg q ++ X = q.1 ++ '=' :: (q.2 ++ X) := by
      intro X
      show (q.1 ++ '=' :: q.2) ++ X = _
      rw [List.append_assoc, List.cons_append]
    show InmapperAuth.fixLead (InmapperAuth.replaceFirstToken
      ('?' :: (InmapperAuth.seg q ++ InmapperAuth.ampPairs
        (pre2 ++ (InmapperAuth.tokenKeyChars, v) :: post)))) = _
    rw [replaceFirstToken_cons, hres, matchTokenAt_none_sep '?' q.1 _
      hknoeq hqne]
    show InmapperAuth.fixLead ('?' :: InmapperAuth.replaceFirstToken
      (q.1 ++ '=' :: (q.2 ++ _))) = _
    rw [← hres, replaceFirstToken_plain_append _ _ (seg_plain q.1 q.2 hqk hqv),
      replaceFirstToken_ampPairs post v hv hvp pre2
        (fun p hp => hpre p (List.mem_cons_of_mem _ hp))]
    rfl

/-- Equation form of `splitAmp` at a cons cell. -/
theorem splitAmp_cons (c : Char) (r : List Char) :
    InmapperAuth.splitAmp (c :: r) =
      if c = '&' then [] :: InmapperAuth.splitAmp r
      else
        match InmapperAuth.splitAmp r with
        | [] => [[c]]
        | s :: ss => (c :: s) :: ss := rfl

/-- Splitting a `&`-free list on `&` yields that list alone. -/
theorem splitAmp_no_amp (l : List Char) :
    (∀ c ∈ l, c ≠ '&') → InmapperAuth.splitAmp l = [l] := by
  induction l with
  | nil => intro _; rfl
  | cons c r ih =>
    intro h
    rw [splitAmp_cons, if_neg (h c (List.mem_cons_self c r)),
      ih (fun c2 hc => h c2 (List.mem_cons_of_mem _ hc))]

/-- Splitting on `&` peels off a `&`-free prefix at the first `&`. -/
theorem splitAmp_append (l m : List Char) :
    (∀ c ∈ l, c ≠ '&') →
    InmapperAuth.splitAmp (l ++ '&' :: m) =
      l :: InmapperAuth.splitAmp m := by
  induction l with
  | nil =>
    intro _
    rw [List.nil_append, splitAmp_cons, if_pos rfl]
  | cons c r ih =>
    intro h
    rw [List.cons_append, splitAmp_cons,
      if_neg (h c (List.mem_cons_self c r)),
      ih (fun c2 hc => h c2 (List.mem_cons_of_mem _ hc))]

/-- `takeWhile (≠ =)` of `key=value` returns the key. -/
theorem takeWhile_no_eq (k t : List Char) :
    '=' ∉ k → (k ++ '=' :: t).takeWhile (fun c => c ≠ '=') = k := by
  induction k with
  | nil =>
    intro _
    rw [List.nil_append, List.takeWhile_cons]
    simp
  | cons c k2 ih =>
    intro h
    rw [List.cons_append, List.takeWhile_cons, if_pos, ih (fun hm =>
      h (List.mem_cons_of_mem _ hm))]
    have : c ≠ '=' := fun hc => h (hc ▸ List.mem_cons_self c k2)
    simpa using this

/-- `dropWhile (≠ =)` of `key=value` returns `=value`. -/
theorem dropWhile_no_eq (k t : List Char) :
    '=' ∉ k → (k ++ '=' :: t).dropWhile (fun c => c ≠ '=') = '=' :: t := by
  induction k with
  | nil =>
    intro _
    rw [List.nil_append, List.dropWhile_cons]
    simp
  | cons c k2 ih =>
    intro h
    rw [List.cons_append, List.dropWhile_cons, if_pos, ih (fun hm =>
      h (List.mem_cons_of_mem _ hm))]
    have : c ≠ '=' := fun hc => h (hc ▸ List.mem_cons_self c k2)
    simpa using this

/-- Splitting a plain rendered segment at the first `=` recovers the
pair. -/
theorem splitEq_seg (k v : List Char) (hk : '=' ∉ k) :
    InmapperAuth.splitEq (InmapperAuth.seg (k, v)) = (k, v) := by
  unfold InmapperAuth.splitEq InmapperAuth.seg
  rw [takeWhile_no_eq k v hk, dropWhile_no_eq k v hk]
  rfl

/-- A rendered segment is never empty. -/
theorem seg_ne_nil (p : List Char × List Char) :
    InmapperAuth.seg p ≠ [] := by
  intro h
  rcases List.append_eq_nil.mp h with ⟨-, h2⟩
  exact absurd h2 (by simp)

/-- No character of a plain segment is `&`. -/
theorem seg_no_amp (k v : List Char) (hk : InmapperAuth.plainKey k)
    (hv : InmapperAuth.plainVal v) :
    ∀ c ∈ InmapperAuth.seg (k, v), c ≠ '&' :=
  fun c hc => (seg_plain k v hk hv c hc).2

/-- Splitting a rendered pair list recovers the rendered segments. -/
theorem splitAmp_render (ps : List (List Char × List Char)) :
    ps ≠ [] →
    (∀ p ∈ ps, InmapperAuth.plainKey p.1 ∧ InmapperAuth.plainVal p.2) →
    InmapperAuth.splitAmp (InmapperAuth.renderPairs ps) =
      ps.map InmapperAuth.seg := by
  induction ps with
  | nil => intro h _; exact absurd rfl h
  | cons q ps2 ih =>
    intro _ h
    obtain ⟨hqk, hqv⟩ := h q (List.mem_cons_self q ps2)
    cases ps2 with
    | nil =>
      show InmapperAuth.splitAmp (InmapperAuth.seg q ++ []) = _
      rw [List.append_nil,
        splitAmp_no_amp _ (seg_no_amp q.1 q.2 hqk hqv)]
      rfl
    | cons q2 ps3 =>
      show InmapperAuth.splitAmp (InmapperAuth.seg q ++
        ('&' :: InmapperAuth.renderPairs (q2 :: ps3))) = _
      rw [splitAmp_append _ _ (seg_no_amp q.1 q.2 hqk hqv),
        ih (by simp) (fun p hp => h p (List.mem_cons_of_mem _ hp))]
      rfl

/-- Parsing a rendered plain query recovers the pair list (the
embedding of `URLSearchParams` iteration on percent-free input). -/
theorem parseSearch_render (ps : List (List Char × List Char)) :
    (∀ p ∈ ps, InmapperAuth.plainKey p.1 ∧ InmapperAuth.plainVal p.2) →
    InmapperAuth.parseSearch (InmapperAuth.renderQuery ps) = ps := by
  intro h
  cases ps with
  | nil => rfl
  | cons q ps2 =>
    show ((InmapperAuth.splitAmp (InmapperAuth.stripQm
      ('?' :: InmapperAuth.renderPairs (q :: ps2)))).filter
        (fun g => g ≠ [])).map InmapperAuth.splitEq = _
    rw [show InmapperAuth.stripQm ('?' :: InmapperAuth.renderPairs (q :: ps2))
      = InmapperAuth.renderPairs (q :: ps2) from rfl]
    rw [splitAmp_render (q :: ps2) (by simp) h]
    rw [List.filter_eq_self.mpr (fun a ha => by
      rcases List.mem_map.mp ha with ⟨p, -, rfl⟩
      simpa using seg_ne_nil p)]
    rw [List.map_map]
    have : ∀ p ∈ q :: ps2,
        (InmapperAuth.splitEq ∘ InmapperAuth.seg) p = p := by
      intro p hp
      obtain ⟨hpk, -⟩ := h p hp
      show InmapperAuth.splitEq (InmapperAuth.seg p) = p
      obtain ⟨k, v⟩ := p
      exact splitEq_seg k v (fun hm => ((hpk.2 '=' hm).2.2.1) rfl)
    rw [List.map_congr_left this]
    simp

/-- `find?` locates the unique `token` pair. -/
theorem find_token (pre post : List (List Char × List Char))
    (v : List Char)
    (hpre : ∀ p ∈ pre, p.1 ≠ InmapperAuth.tokenKeyChars) :
    (pre ++ (InmapperAuth.tokenKeyChars, v) :: post).find?
      (fun p => p.1 == InmapperAuth.tokenKeyChars) =
      some (InmapperAuth.tokenKeyChars, v) := by
  induction pre with
  | nil => simp [List.find?_cons]
  | cons q pre2 ih =>
    rw [List.cons_append, List.find?_cons]
    rw [show (q.1 == InmapperAuth.tokenKeyChars) = false from
      beq_eq_false_iff_ne.mpr (hpre q (List.mem_cons_self q pre2))]
    exact ih (fun p hp => hpre p (List.mem_cons_of_mem _ hp))

/-- The interceptor reads the unique `token` parameter of a rendered
plain query. -/
theorem getParam_render
    (pre post : List (List Char × List Char)) (v : List Char)
    (hpre : ∀ p ∈ pre, InmapperAuth.plainKey p.1 ∧
      InmapperAuth.plainVal p.2 ∧ p.1 ≠ InmapperAuth.tokenKeyChars)
    (hpost : ∀ p ∈ post, InmapperAuth.plainKey p.1 ∧
      InmapperAuth.plainVal p.2)
    (hvp : InmapperAuth.plainVal v) :
    InmapperAuth.getParam InmapperAuth.tokenKeyChars
      (InmapperAuth.renderQuery
        (pre ++ (InmapperAuth.tokenKeyChars, v) :: post)) = some v := by
  have hkTok : InmapperAuth.plainKey InmapperAuth.tokenKeyChars := by
    unfold InmapperAuth.plainKey
    exact ⟨by decide, by decide⟩
  unfold InmapperAuth.getParam
  rw [parseSearch_render _ (by
    intro p hp
    rcases List.mem_append.mp hp with hm | hm
    · exact ⟨(hpre p hm).1, (hpre p hm).2.1⟩
    · rcases List.mem_cons.mp hm with rfl | hm2
      · exact ⟨hkTok, hvp⟩
      · exact hpost p hm2)]
  rw [find_token pre post v (fun p hp => (hpre p hp).2.2)]
  rfl

/-- Claim C3, amended: for every URL whose query string is a
`&`-separated sequence of `key=value` segments in which `?`, `&`,
`%` and `+` occur only as separators (so values are free of `?` and
of percent-escapes; the counterexample shows a value containing
`?token=` derails the regex) and which contains exactly one segment
with key `token`, with a nonempty value `v`, the interceptor adopts
`v` as the active token (overwriting any existing one), persists it
to the store, and rewrites the visible query to exactly the original
with the `token` segment and its separator removed, the rest
preserved byte-for-byte; in particular `?foo=1&token=X&bar=2` yields
stored token `X` and visible query `?foo=1&bar=2`. -/
theorem callback_token_adoption_and_rewrite
    (pre post : List (List Char × List Char)) (v : List Char)
    (hpre : ∀ p ∈ pre, InmapperAuth.plainKey p.1 ∧
      InmapperAuth.plainVal p.2 ∧ p.1 ≠ InmapperAuth.tokenKeyChars)
    (hpost : ∀ p ∈ post, InmapperAuth.plainKey p.1 ∧
      InmapperAuth.plainVal p.2 ∧ p.1 ≠ InmapperAuth.tokenKeyChars)
    (hv : v ≠ []) (hvp : InmapperAuth.plainVal v) :
    InmapperAuth.getParam InmapperAuth.tokenKeyChars
      (InmapperAuth.renderQuery
        (pre ++ (InmapperAuth.tokenKeyChars, v) :: post)) = some v
    ∧ InmapperAuth.cleanSearch
      (InmapperAuth.renderQuery
        (pre ++ (InmapperAuth.tokenKeyChars, v) :: post)) =
      InmapperAuth.renderQuery (pre ++ post)
    ∧ ∀ (env : InmapperAuth.Env) (a : InmapperAuth.AuthState)
        (st : InmapperAuth.Store),
        env.search = InmapperAuth.renderQuery
          (pre ++ (InmapperAuth.tokenKeyChars, v) :: post) →
        (InmapperAuth.handleCallbackToken env a st 2).1.token =
          some (String.mk v)
        ∧ (InmapperAuth.handleCallbackToken env a st 2).2.1.tokenSlot =
          some (String.mk v)
        ∧ (InmapperAuth.handleCallbackToken env a st 2).2.2.1.search =
          InmapperAuth.renderQuery (pre ++ post) := by
  have h1 := getParam_render pre post v hpre
    (fun p hp => ⟨(hpost p hp).1, (hpost p hp).2.1⟩) hvp
  have h2 := cleanSearch_render pre post v hpre hv hvp
  refine ⟨h1, h2, ?_⟩
  intro env a st hs
  have hmkne : String.mk v ≠ "" := by
    intro hc
    exact hv (by simpa using congrArg String.data hc)
  have htr : InmapperAuth.truthy (some (String.mk v)) = true :=
    truthy_some_of_ne hmkne
  obtain ⟨atk, aus, aini⟩ := a
  rcases aus with _ | u <;>
    simp [InmapperAuth.handleCallbackToken, hs, h1, h2, hv,
      InmapperAuth.saveToStorage, htr]

/-- Witness for C3 (amended) at the spec's round-trip example:
loading `?foo=1&token=X&bar=2` adopts token `X` and leaves visible
query `?foo=1&bar=2`. -/
theorem callback_token_adoption_and_rewrite_witness :
    InmapperAuth.getParam InmapperAuth.tokenKeyChars
      ("?foo=1&token=X&bar=2".data) = some ("X".data)
    ∧ InmapperAuth.cleanSearch ("?foo=1&token=X&bar=2".data) =
      ("?foo=1&bar=2".data) := by
  have h := callback_token_adoption_and_rewrite
    [("foo".data, "1".data)] [("bar".data, "2".data)] ("X".data)
    (by decide) (by decide) (by decide) (by decide)
  have hq : InmapperAuth.renderQuery
      ([("foo".data, "1".data)] ++
        (InmapperAuth.tokenKeyChars, "X".data) :: [("bar".data, "2".data)]) =
      ("?foo=1&token=X&bar=2".data) := by decide
  have hq2 : InmapperAuth.renderQuery
      ([("foo".data, "1".data)] ++ [("bar".data, "2".data)]) =
      ("?foo=1&bar=2".data) := by decide
  refine ⟨?_, ?_⟩
  · rw [← hq]
    exact h.1
  · rw [← hq, ← hq2]
    exact h.2.1
